import Mathlib

/-!
Verification development for the PHPStan Docker Runner extension
(`src/extension.ts`).  The core under study is:

* `runPhpstan` — builds the analyzer command (remote path construction,
  optional configuration flag, docker wrapper) and interprets the exit
  status of the external process;
* `processPhpstanOutput` — a forward scan over the captured stdout that
  classifies each line (blank / separator / diagnostic row / file header),
  reconciles container paths to local workspace paths, and accumulates a
  mapping from local file path to an ordered list of diagnostics.

The embedding is faithful to the TypeScript source: JavaScript string
truthiness is modelled as inequality with the empty string, `path` module
functions are modelled in their POSIX form (the code normalizes
backslashes to forward slashes itself), and the filesystem accessed by
`fs.existsSync` / `fs.statSync` / `fs.readdirSync` is passed explicitly
as a finite list of (absolute path, is-directory) entries.
-/

namespace PhpstanRunner

/-- Whitespace characters relevant to the report format (the JavaScript
regex class also admits rarer characters such as form feed; script inputs
in this development use only spaces and tabs, where the two agree). -/
def isWsChar (c : Char) : Bool := c = ' ' || c = '\t'

/-- Splits a character list at every occurrence of the separator
character, keeping empty pieces, as JavaScript `String.split` does. -/
def splitChAux (sep : Char) : List Char → List Char → List String
  | [], acc => [String.mk acc.reverse]
  | c :: rest, acc =>
    if c = sep then String.mk acc.reverse :: splitChAux sep rest []
    else splitChAux sep rest (c :: acc)

/-- Lines of the captured stdout, split on the newline character exactly
as `stdout.split('\n')` does (empty trailing pieces kept). -/
def phpLines (s : String) : List String := splitChAux '\n' s.toList []

/-- Maximal runs of non-whitespace characters of a line, in order. -/
def wsRunsAux : List Char → List Char → List (List Char)
  | [], acc => if acc = [] then [] else [acc.reverse]
  | c :: rest, acc =>
    if isWsChar c then
      (if acc = [] then wsRunsAux rest [] else acc.reverse :: wsRunsAux rest [])
    else wsRunsAux rest (c :: acc)

def wsRuns (cs : List Char) : List (List Char) := wsRunsAux cs []

/-- Substring occurrence test, mirroring JavaScript `String.includes`. -/
def hasSub (pat : List Char) : List Char → Bool
  | [] => pat.isPrefixOf []
  | c :: rest => pat.isPrefixOf (c :: rest) || hasSub pat rest

/-- JavaScript `String.trim` (restricted to the whitespace characters of
`isWsChar`, which covers all inputs used here). -/
def trimJS (s : String) : String :=
  String.mk ((s.toList.dropWhile isWsChar).reverse.dropWhile isWsChar).reverse

/-- JavaScript `String.startsWith`. -/
def strStarts (s pre : String) : Bool := pre.toList.isPrefixOf s.toList

/-- JavaScript `String.endsWith`. -/
def strEnds (s suf : String) : Bool := suf.toList.reverse.isPrefixOf s.toList.reverse

/-- JavaScript `String.substring(n)` on ASCII content. -/
def strDropN (s : String) (n : Nat) : String := String.mk (s.toList.drop n)

/-- Length in characters (UTF-16 length for the ASCII inputs used). -/
def strLen (s : String) : Nat := s.toList.length

/-- The `.replace(/^\//, '')` step of the path reconciliation. -/
def dropLeadSlash (s : String) : String :=
  if strStarts s "/" then strDropN s 1 else s

/-- The `.replace(/\\/g, '/')` separator normalization. -/
def slashify (s : String) : String :=
  String.mk (s.toList.map (fun c => if c = '\\' then '/' else c))

/-! POSIX path-module functions used by the source (`path.isAbsolute`,
`path.resolve`, `path.join`, `path.relative`, `path.basename`).  The
workspace root handed to them by the editor is an absolute path, which
these models assume where noted. -/

def isAbsolute (p : String) : Bool := strStarts p "/"

/-- Normalized components of an absolute path: empty and dot components
vanish, a dot-dot pops (clamped at the root). -/
def normAbsComps : List String → List String → List String
  | [], acc => acc.reverse
  | c :: rest, acc =>
    if c = "" || c = "." then normAbsComps rest acc
    else if c = ".." then normAbsComps rest acc.tail
    else normAbsComps rest (c :: acc)

def joinComps : List String → String
  | [] => ""
  | [c] => c
  | c :: rest => c ++ "/" ++ joinComps rest

/-- POSIX normalization of an absolute path. -/
def normAbs (p : String) : String :=
  "/" ++ joinComps (normAbsComps (splitChAux '/' p.toList []) [])

/-- Normalized components of a relative path: leading dot-dots survive. -/
def normRelComps : List String → List String → List String
  | [], acc => acc.reverse
  | c :: rest, acc =>
    if c = "" || c = "." then normRelComps rest acc
    else if c = ".." then
      (match acc with
       | [] => normRelComps rest [".."]
       | top :: below =>
         if top = ".." then normRelComps rest (".." :: acc)
         else normRelComps rest below)
    else normRelComps rest (c :: acc)

def normRel (p : String) : String :=
  let comps := normRelComps (splitChAux '/' p.toList []) []
  if comps = [] then "." else joinComps comps

/-- POSIX `path.resolve(base, p)` for an absolute `base` (the workspace
root supplied by the editor is always absolute). -/
def pathResolve (base p : String) : String :=
  if isAbsolute p then normAbs p else normAbs (base ++ "/" ++ p)

/-- POSIX `path.join(a, b)`. -/
def pathJoin (a b : String) : String :=
  let j := if a = "" then b else if b = "" then a else a ++ "/" ++ b
  if isAbsolute j then normAbs j else normRel j

/-- POSIX `path.basename` for the path shapes arising here (no trailing
slash). -/
def basename (p : String) : String :=
  (((splitChAux '/' p.toList []).filter (fun c => c ≠ "")).getLast?).getD ""

/-- Components shared by two absolute paths are dropped; the remainders
drive `path.relative`. -/
def dropCommon : List String → List String → List String × List String
  | a :: as', b :: bs' =>
    if a = b then dropCommon as' bs' else (a :: as', b :: bs')
  | as', bs' => (as', bs')

/-- POSIX `path.relative(f, t)` for absolute arguments. -/
def pathRelative (f t : String) : String :=
  let fc := normAbsComps (splitChAux '/' f.toList []) []
  let tc := normAbsComps (splitChAux '/' t.toList []) []
  let p := dropCommon fc tc
  joinComps (p.1.map (fun _ => "..") ++ p.2)

/-! Filesystem model.  The TypeScript code consults the host filesystem
through `fs.existsSync`, `fs.statSync(...).isDirectory()` and
`fs.readdirSync`; the embedding passes the filesystem explicitly as a
finite list of entries, each an absolute normalized path paired with its
is-directory flag. -/

/-- A finite snapshot of the host filesystem. -/
abbrev FS := List (String × Bool)

def fsExists (fs : FS) (p : String) : Bool := fs.any (fun e => e.1 = p)

def statIsDir (fs : FS) (p : String) : Bool :=
  match fs.find? (fun e => e.1 = p) with
  | some e => e.2
  | none => false

/-- Names listed by `fs.readdirSync(d)` for a directory path `d` not
ending in a slash: the immediate children of `d` present in the
snapshot, in snapshot order. -/
def readdir (fs : FS) (d : String) : List String :=
  fs.filterMap (fun e =>
    if strStarts e.1 (d ++ "/") then
      let n := e.1.toList.drop (strLen d + 1)
      if n ≠ [] && !(n.contains '/') then some (String.mk n) else none
    else none)

/-- One pass of the inner `for (const file of files)` loop of
`findFileInWorkspace`: directories are pushed onto the stack as they are
met, a file whose name equals the searched name returns its full path at
once. -/
def scanEntries (fs : FS) (fileName dir : String) :
    List String → List String → List String ⊕ String
  | [], stack => Sum.inl stack
  | name :: rest, stack =>
    let fullPath := pathJoin dir name
    if statIsDir fs fullPath then
      scanEntries fs fileName dir rest (fullPath :: stack)
    else if name = fileName then Sum.inr fullPath
    else scanEntries fs fileName dir rest stack

/-- The `while (stack.length)` loop of `findFileInWorkspace`; `fuel`
bounds the iterations (each iteration pops one directory, and only
snapshot entries are ever pushed, so `fs.length + 1` iterations always
suffice on the snapshots used here). -/
def findLoop (fs : FS) (fileName : String) : Nat → List String → Option String
  | 0, _ => none
  | _ + 1, [] => none
  | fuel + 1, dir :: rest =>
    match scanEntries fs fileName dir (readdir fs dir) rest with
    | Sum.inr found => some found
    | Sum.inl stack => findLoop fs fileName fuel stack

/-- The helper `findFileInWorkspace(root, fileName, searchDir)`: search
root is the target path when it names an existing directory, otherwise
the workspace root; the traversal is the explicit stack-based scan. -/
def findFileInWorkspace (fs : FS) (root fileName : String)
    (searchDir : Option String) : Option String :=
  let searchRoot :=
    match searchDir with
    | some d => if d ≠ "" && fsExists fs d && statIsDir fs d then d else root
    | none => root
  findLoop fs fileName (fs.length + 1) [searchRoot]

/-! Line classifiers of `processPhpstanOutput`, mirroring the regular
expressions of the source. -/

/-- The separator test `line.includes('------') && line.includes('------')`
of the scan (the source repeats the same substring test twice, so the
condition is a single occurrence check). -/
def hasDashSep (line : String) : Bool :=
  hasSub "------".toList line.toList && hasSub "------".toList line.toList

/-- The diagnostic-row pattern (leading whitespace, a digit run, at least
one whitespace character, then at least one further character).  Returns
the parsed integer and the text remainder after the digit run; the
greedy-plus-backtracking capture of the tail always trims to the trimmed
remainder, which the caller applies. -/
def errorMatch (line : String) : Option (Nat × String) :=
  let afterWs := line.toList.dropWhile isWsChar
  let digits := afterWs.takeWhile Char.isDigit
  let rest := afterWs.dropWhile Char.isDigit
  if digits = [] then none
  else
    match rest with
    | [] => none
    | c :: tail =>
      if isWsChar c && tail ≠ [] then
        some (digits.foldl (fun acc d => acc * 10 + (d.toNat - 48)) 0,
              String.mk (c :: tail))
      else none

/-- End positions of `.php` occurrences usable by the token pattern
inside one non-whitespace run: the largest start `j ≥ 1` at which `.php`
occurs (the greedy prefix takes everything before the last occurrence). -/
def lastPhpStart (r : List Char) : Option Nat :=
  (List.range r.length).reverse.find?
    (fun j => decide (1 ≤ j) && ".php".toList.isPrefixOf (r.drop j))

/-- The token the pattern `([^\s]+\.php)` extracts from one run, when the
run admits a match. -/
def tokenOfRun (r : List Char) : Option String :=
  (lastPhpStart r).map (fun j => String.mk (r.take (j + 4)))

/-- First match of `([^\s]+\.php)` over the whole line (leftmost run that
admits a match). -/
def extractPhpToken (line : String) : Option String :=
  ((wsRuns line.toList).filterMap tokenOfRun).head?

/-! Diagnostic records and the scan state. -/

inductive DiagSeverity
  | error
  | warning
  | information
  | hint
deriving DecidableEq, Repr

/-- One reported problem, as built by `new vscode.Diagnostic(new
vscode.Range(lineNumber, 0, lineNumber, 1000), message, Warning)` with
`source = 'PHPStan'`.  Line fields are integers because the source
computes `parseInt(...) - 1`, which can be negative before the guard. -/
structure Diagnostic where
  startLine : Int
  startCol : Nat
  endLine : Int
  endCol : Nat
  message : String
  severity : DiagSeverity
  source : String
deriving DecidableEq, Repr

def mkDiag (n : Int) (msg : String) : Diagnostic :=
  ⟨n, 0, n, 1000, msg, DiagSeverity.warning, "PHPStan"⟩

/-- The mapping `{ [file: string]: vscode.Diagnostic[] }` with JavaScript
object semantics: string keys in insertion order, values ordered lists. -/
abbrev DiagnosticSet := List (String × List Diagnostic)

/-- The statement pair `if (!diagnostics[currentFile])
diagnostics[currentFile] = []; diagnostics[currentFile].push(diagnostic)`:
append to an existing key in place, or add a new key at the end. -/
def pushDiag : DiagnosticSet → String → Diagnostic → DiagnosticSet
  | [], f, d => [(f, [d])]
  | e :: rest, f, d =>
    if e.1 = f then (e.1, e.2 ++ [d]) :: rest
    else e :: pushDiag rest f d

/-- Diagnostics currently recorded under a key (empty when absent). -/
def lookupD (m : DiagnosticSet) (f : String) : List Diagnostic :=
  match m.find? (fun e => e.1 = f) with
  | some e => e.2
  | none => []

structure ScanState where
  currentFile : String
  diagnostics : DiagnosticSet
deriving DecidableEq

/-- Path reconciliation of one extracted token, as in the file-header
branch of `processPhpstanOutput`: the known single-file path wins
outright; then an absolute token that exists locally; then the remote
prefix is stripped (or the token is joined onto the workspace root), and
if the built path does not exist, a recursive basename search may replace
it. -/
def resolveFilePath (fs : FS) (workspaceRoot workDirectory : String)
    (known : Option String) (targetPath : Option String) (tok : String) : String :=
  match known with
  | some k => k
  | none =>
    if isAbsolute tok && fsExists fs tok then tok
    else
      let resolved :=
        if strStarts tok workDirectory then
          pathResolve workspaceRoot (dropLeadSlash (strDropN tok (strLen workDirectory)))
        else
          pathResolve workspaceRoot tok
      if fsExists fs resolved then resolved
      else
        match findFileInWorkspace fs workspaceRoot (basename tok) targetPath with
        | some found => found
        | none => resolved

/-- The body of the `for (const line of lines)` loop: blank lines and
separator lines are skipped, a diagnostic-row match is recorded when a
current file is established and the zero-based line number is
non-negative, and otherwise a line containing `.php` may establish a new
current file. -/
def stepLine (fs : FS) (workspaceRoot workDirectory : String)
    (known : Option String) (targetPath : Option String)
    (st : ScanState) (line : String) : ScanState :=
  if trimJS line = "" then st
  else if hasDashSep line then st
  else
    match errorMatch line with
    | some nm =>
      let lineNumber : Int := (nm.1 : Int) - 1
      let message := trimJS nm.2
      if st.currentFile ≠ "" && decide (0 ≤ lineNumber) then
        { st with diagnostics :=
            pushDiag st.diagnostics st.currentFile (mkDiag lineNumber message) }
      else st
    | none =>
      if hasSub ".php".toList line.toList then
        match extractPhpToken line with
        | some tok =>
          { st with currentFile :=
              resolveFilePath fs workspaceRoot workDirectory known targetPath tok }
        | none => st
      else st

/-- The scan of `processPhpstanOutput` with the known-file shortcut made
an explicit parameter. -/
def scanLines (fs : FS) (workspaceRoot workDirectory : String)
    (known : Option String) (targetPath : Option String)
    (lines : List String) : DiagnosticSet :=
  (lines.foldl (stepLine fs workspaceRoot workDirectory known targetPath)
    ⟨"", []⟩).diagnostics

/-- The known-file shortcut condition: the invocation targeted a path
that is a `.php` file existing locally (the JavaScript truthiness test on
the target is subsumed, because the empty string ends with nothing). -/
def knownFileOf (fs : FS) (targetPath : Option String) : Option String :=
  match targetPath with
  | some tp => if strEnds tp ".php" && fsExists fs tp then some tp else none
  | none => none

/-- The parser `processPhpstanOutput`: stdout is split on newlines and
scanned, producing the file-to-diagnostics mapping. -/
def processPhpstanOutput (fs : FS) (stdout : String)
    (workspaceRoot workDirectory : String) (targetPath : Option String) :
    DiagnosticSet :=
  scanLines fs workspaceRoot workDirectory (knownFileOf fs targetPath) targetPath
    (phpLines stdout)

/-- Total problem count of a mapping, as in the summary fold. -/
def totalErrors (m : DiagnosticSet) : Nat :=
  m.foldl (fun acc e => acc + e.2.length) 0

/-- The user-facing summary message: a distinct message for the
zero-diagnostics case. -/
def summaryMessage (m : DiagnosticSet) : String :=
  if 0 < totalErrors m then
    "PHPStan encontró " ++ toString (totalErrors m) ++ " problemas en "
      ++ toString m.length ++ " archivos"
  else "PHPStan no encontró problemas"

/-! Command construction and exit-status handling of `runPhpstan`. -/

/-- The remote path argument for a targeted run: the local target made
relative to the workspace root, joined onto the remote working directory,
with backslashes normalized to forward slashes. -/
def containerPathFor (workspaceRoot workDirectory targetPath : String) : String :=
  slashify (pathJoin workDirectory (pathRelative workspaceRoot targetPath))

/-- The analyzer command string built by `runPhpstan`: base invocation
with the level, the configuration flag only when the configuration file
exists at the workspace root, then the path argument (remote working
directory verbatim for a whole-project run). -/
def buildPhpstanCommand (fs : FS) (phpstanPath level configFile : String)
    (workspaceRoot workDirectory : String) (targetPath : Option String) : String :=
  let base := phpstanPath ++ " analyse --level=" ++ level
  let base :=
    if fsExists fs (pathJoin workspaceRoot configFile) then
      base ++ " --configuration=" ++ configFile
    else base
  match targetPath with
  | some tp => base ++ " " ++ containerPathFor workspaceRoot workDirectory tp
  | none => base ++ " " ++ workDirectory

/-- The full command handed to the shell. -/
def buildDockerCommand (fs : FS) (containerName phpstanPath level configFile : String)
    (workspaceRoot workDirectory : String) (targetPath : Option String) : String :=
  "docker exec " ++ containerName ++ " "
    ++ buildPhpstanCommand fs phpstanPath level configFile workspaceRoot
        workDirectory targetPath

/-- Outcome of the external process: a zero exit status with captured
output, or a non-zero exit status carrying its code and captured output. -/
inductive ExecResult
  | ok (stdout stderr : String)
  | failed (code : Int) (stdout stderr : String)

/-- Exit-status interpretation of `runPhpstan`: a clean exit is parsed,
exit code 1 (the analyzer found issues) is parsed identically from the
captured stdout, and any other failure is escalated (`none`). -/
def handleExecResult (fs : FS) (workspaceRoot workDirectory : String)
    (targetPath : Option String) : ExecResult → Option DiagnosticSet
  | ExecResult.ok stdout _ =>
    some (processPhpstanOutput fs stdout workspaceRoot workDirectory targetPath)
  | ExecResult.failed code stdout _ =>
    if code = 1 then
      some (processPhpstanOutput fs stdout workspaceRoot workDirectory targetPath)
    else none

/-- Recognition of a file-header line by the scan: a non-blank,
non-separator line that fails the diagnostic-row pattern, contains
`.php`, and yields a token to the extraction pattern.  Recognition is a
property of the line text alone; only the subsequent path resolution
consults the filesystem. -/
def isFileHeader (line : String) : Bool :=
  trimJS line ≠ "" && !hasDashSep line && (errorMatch line).isNone
    && hasSub ".php".toList line.toList && (extractPhpToken line).isSome

/-- Flat-trace companion of `stepLine`: the state is the current file
together with the list of (file, diagnostic) emissions so far, in scan
order.  The branch structure is identical to `stepLine`. -/
def stepTrace (fs : FS) (workspaceRoot workDirectory : String)
    (known : Option String) (targetPath : Option String)
    (st : String × List (String × Diagnostic)) (line : String) :
    String × List (String × Diagnostic) :=
  if trimJS line = "" then st
  else if hasDashSep line then st
  else
    match errorMatch line with
    | some nm =>
      let lineNumber : Int := (nm.1 : Int) - 1
      let message := trimJS nm.2
      if st.1 ≠ "" && decide (0 ≤ lineNumber) then
        (st.1, st.2 ++ [(st.1, mkDiag lineNumber message)])
      else st
    | none =>
      if hasSub ".php".toList line.toList then
        match extractPhpToken line with
        | some tok =>
          (resolveFilePath fs workspaceRoot workDirectory known targetPath tok, st.2)
        | none => st
      else st

/-- The emission trace of a whole report: every (file, diagnostic) pair
the scan records, in the order of the rows of the report. -/
def reportTrace (fs : FS) (stdout : String)
    (workspaceRoot workDirectory : String) (targetPath : Option String) :
    List (String × Diagnostic) :=
  ((phpLines stdout).foldl
    (stepTrace fs workspaceRoot workDirectory (knownFileOf fs targetPath) targetPath)
    ("", [])).2

/-- The subsequence of a trace attributed to one file, order kept. -/
def fileFilter (f : String) (tr : List (String × Diagnostic)) : List Diagnostic :=
  tr.filterMap (fun p => if p.1 = f then some p.2 else none)

/-! Supporting lemmas. -/

theorem lookupD_nil (f : String) : lookupD [] f = [] := rfl

theorem lookupD_cons (e : String × List Diagnostic) (rest : DiagnosticSet)
    (f : String) : lookupD (e :: rest) f = if e.1 = f then e.2 else lookupD rest f := by
  by_cases h : e.1 = f <;> simp [lookupD, List.find?_cons, h]

theorem lookupD_pushDiag (m : DiagnosticSet) (g : String) (d : Diagnostic)
    (f : String) :
    lookupD (pushDiag m g d) f =
      if g = f then lookupD m f ++ [d] else lookupD m f := by
  induction m with
  | nil =>
    by_cases h : g = f <;> simp [pushDiag, lookupD_cons, lookupD_nil, h]
  | cons e rest ih =>
    by_cases he : e.1 = g
    · by_cases hf : g = f
      · simp [pushDiag, he, lookupD_cons, he.trans hf, hf]
      · have hef : e.1 ≠ f := fun h => hf (he.symm.trans h)
        simp [pushDiag, he, lookupD_cons, hef, hf]
    · by_cases hf : e.1 = f
      · have hgf : ¬(g = f) := fun h => he (hf.trans h.symm)
        have hfg : ¬(f = g) := fun h => hgf h.symm
        simp [pushDiag, he, lookupD_cons, hf, hgf, hfg]
      · simp [pushDiag, he, lookupD_cons, hf, ih]

theorem fileFilter_nil (f : String) : fileFilter f [] = [] := rfl

theorem fileFilter_append_one (f : String) (tr : List (String × Diagnostic))
    (g : String) (d : Diagnostic) :
    fileFilter f (tr ++ [(g, d)]) =
      fileFilter f tr ++ (if g = f then [d] else []) := by
  by_cases h : g = f <;> simp [fileFilter, List.filterMap_append, h]

/-- One scan step keeps the grouped mapping and the flat trace aligned:
the current files agree and, for every file, the recorded diagnostics are
the trace entries attributed to that file. -/
theorem stepRel (fs : FS) (ws wd : String) (known target : Option String)
    (st : ScanState) (tst : String × List (String × Diagnostic)) (line : String)
    (hcur : st.currentFile = tst.1)
    (hmap : ∀ f, lookupD st.diagnostics f = fileFilter f tst.2) :
    (stepLine fs ws wd known target st line).currentFile
        = (stepTrace fs ws wd known target tst line).1
      ∧ ∀ f, lookupD (stepLine fs ws wd known target st line).diagnostics f
        = fileFilter f (stepTrace fs ws wd known target tst line).2 := by
  obtain ⟨cf, dm⟩ := st
  obtain ⟨tc, tt⟩ := tst
  simp only at hcur hmap
  subst hcur
  by_cases h1 : trimJS line = ""
  · simp only [stepLine, stepTrace, if_pos h1]
    exact ⟨by trivial, hmap⟩
  · by_cases h2 : hasDashSep line = true
    · simp only [stepLine, stepTrace, if_neg h1, if_pos h2]
      exact ⟨by trivial, hmap⟩
    · cases hm : errorMatch line with
      | some nm =>
        simp only [stepLine, stepTrace, if_neg h1, if_neg h2, hm]
        by_cases hg : (cf ≠ "" && decide (0 ≤ (nm.1 : Int) - 1)) = true
        · simp only [if_pos hg]
          refine ⟨by trivial, fun f => ?_⟩
          simp [lookupD_pushDiag, fileFilter_append_one, hmap f]
          by_cases h : cf = f <;> simp [h]
        · simp only [if_neg hg]
          exact ⟨by trivial, hmap⟩
      | none =>
        by_cases h3 : hasSub ".php".toList line.toList = true
        · cases he : extractPhpToken line with
          | some tok =>
            simp only [stepLine, stepTrace, if_neg h1, if_neg h2, hm, if_pos h3, he]
            exact ⟨by trivial, hmap⟩
          | none =>
            simp only [stepLine, stepTrace, if_neg h1, if_neg h2, hm, if_pos h3, he]
            exact ⟨by trivial, hmap⟩
        · simp only [stepLine, stepTrace, if_neg h1, if_neg h2, hm, if_neg h3]
          exact ⟨by trivial, hmap⟩

/-- The alignment of `stepRel` extends over a whole scan. -/
theorem foldRel (fs : FS) (ws wd : String) (known target : Option String)
    (lines : List String) :
    ∀ (st : ScanState) (tst : String × List (String × Diagnostic)),
      st.currentFile = tst.1 →
      (∀ f, lookupD st.diagnostics f = fileFilter f tst.2) →
      (lines.foldl (stepLine fs ws wd known target) st).currentFile
          = (lines.foldl (stepTrace fs ws wd known target) tst).1
        ∧ ∀ f,
          lookupD (lines.foldl (stepLine fs ws wd known target) st).diagnostics f
            = fileFilter f (lines.foldl (stepTrace fs ws wd known target) tst).2 := by
  induction lines with
  | nil => intro st tst h1 h2; exact ⟨h1, h2⟩
  | cons l rest ih =>
    intro st tst h1 h2
    have h := stepRel fs ws wd known target st tst l h1 h2
    exact ih _ _ h.1 h.2

/-- Keys of the mapping stay inside a single-file set when every push
targets that file. -/
theorem pushDiag_keys (g tp : String) (d : Diagnostic) (hg : g = tp) :
    ∀ m : DiagnosticSet, (∀ e ∈ m, e.1 = tp) → ∀ e ∈ pushDiag m g d, e.1 = tp := by
  intro m
  induction m with
  | nil =>
    intro _ e he
    simp only [pushDiag, List.mem_singleton] at he
    subst he
    exact hg
  | cons a rest ih =>
    intro hm e he
    simp only [pushDiag] at he
    by_cases ha : a.1 = g
    · rw [if_pos ha] at he
      rcases List.mem_cons.mp he with he | he
      · rw [he]
        exact hm a (List.mem_cons_self _ _)
      · exact hm e (List.mem_cons_of_mem _ he)
    · rw [if_neg ha] at he
      rcases List.mem_cons.mp he with he | he
      · rw [he]
        exact hm a (List.mem_cons_self _ _)
      · exact ih (fun x hx => hm x (List.mem_cons_of_mem _ hx)) e he

/-- With the known-file shortcut active, one scan step keeps the current
file inside the two-value set (unset, or the known file) and keeps every
mapping key equal to the known file. -/
theorem stepLine_knownInv (fs : FS) (ws wd : String) (target : Option String)
    (tp : String) (st : ScanState) (line : String)
    (hcur : st.currentFile = "" ∨ st.currentFile = tp)
    (hkeys : ∀ e ∈ st.diagnostics, e.1 = tp) :
    ((stepLine fs ws wd (some tp) target st line).currentFile = ""
        ∨ (stepLine fs ws wd (some tp) target st line).currentFile = tp)
      ∧ ∀ e ∈ (stepLine fs ws wd (some tp) target st line).diagnostics, e.1 = tp := by
  obtain ⟨cf, dm⟩ := st
  simp only at hcur hkeys
  by_cases h1 : trimJS line = ""
  · simp only [stepLine, if_pos h1]
    exact ⟨hcur, hkeys⟩
  · by_cases h2 : hasDashSep line = true
    · simp only [stepLine, if_neg h1, if_pos h2]
      exact ⟨hcur, hkeys⟩
    · cases hm : errorMatch line with
      | some nm =>
        simp only [stepLine, if_neg h1, if_neg h2, hm]
        by_cases hg : (cf ≠ "" && decide (0 ≤ (nm.1 : Int) - 1)) = true
        · simp only [if_pos hg]
          have hne : cf ≠ "" := by
            rw [Bool.and_eq_true] at hg
            exact of_decide_eq_true hg.1
          have hct : cf = tp := hcur.resolve_left hne
          exact ⟨hcur, pushDiag_keys cf tp _ hct dm hkeys⟩
        · simp only [if_neg hg]
          exact ⟨hcur, hkeys⟩
      | none =>
        by_cases h3 : hasSub ".php".toList line.toList = true
        · cases he : extractPhpToken line with
          | some tok =>
            simp only [stepLine, if_neg h1, if_neg h2, hm, if_pos h3, he]
            exact ⟨Or.inr rfl, hkeys⟩
          | none =>
            simp only [stepLine, if_neg h1, if_neg h2, hm, if_pos h3, he]
            exact ⟨hcur, hkeys⟩
        · simp only [stepLine, if_neg h1, if_neg h2, hm, if_neg h3]
          exact ⟨hcur, hkeys⟩

/-- The known-file invariant extends over a whole scan. -/
theorem foldKnownInv (fs : FS) (ws wd : String) (target : Option String)
    (tp : String) (lines : List String) :
    ∀ st : ScanState,
      (st.currentFile = "" ∨ st.currentFile = tp) →
      (∀ e ∈ st.diagnostics, e.1 = tp) →
      ∀ e ∈ (lines.foldl (stepLine fs ws wd (some tp) target) st).diagnostics,
        e.1 = tp := by
  induction lines with
  | nil => intro st _ h2; exact h2
  | cons l rest ih =>
    intro st h1 h2
    have h := stepLine_knownInv fs ws wd target tp st l h1 h2
    exact ih _ h.1 h.2

/-- A line that is not recognized as a file header leaves an initial scan
state (no current file, no diagnostics) unchanged. -/
theorem stepLine_noHeader (fs : FS) (ws wd : String) (known target : Option String)
    (st : ScanState) (line : String)
    (hline : isFileHeader line = false)
    (hcur : st.currentFile = "") (hd : st.diagnostics = []) :
    (stepLine fs ws wd known target st line).currentFile = ""
      ∧ (stepLine fs ws wd known target st line).diagnostics = [] := by
  obtain ⟨cf, dm⟩ := st
  simp only at hcur hd
  subst hcur
  subst hd
  by_cases h1 : trimJS line = ""
  · simp only [stepLine, if_pos h1]
    constructor <;> trivial
  · by_cases h2 : hasDashSep line = true
    · simp only [stepLine, if_neg h1, if_pos h2]
      constructor <;> trivial
    · cases hm : errorMatch line with
      | some nm =>
        have hgneg : ¬(("" : String) ≠ "" && decide (0 ≤ (nm.1 : Int) - 1)) = true := by
          simp
        simp only [stepLine, if_neg h1, if_neg h2, hm, if_neg hgneg]
        constructor <;> trivial
      | none =>
        by_cases h3 : hasSub ".php".toList line.toList = true
        · cases he : extractPhpToken line with
          | some tok =>
            exfalso
            have ht : isFileHeader line = true := by
              unfold isFileHeader
              rw [hm, he, h3]
              simp [h1, h2]
            rw [ht] at hline
            cases hline
          | none =>
            simp only [stepLine, if_neg h1, if_neg h2, hm, if_pos h3, he]
            constructor <;> trivial
        · simp only [stepLine, if_neg h1, if_neg h2, hm, if_neg h3]
          constructor <;> trivial

/-- A scan over lines none of which is a recognized file header keeps the
initial state: no current file is ever established and no diagnostic is
ever recorded. -/
theorem foldNoHeader (fs : FS) (ws wd : String) (known target : Option String)
    (lines : List String) :
    ∀ st : ScanState,
      (∀ l ∈ lines, isFileHeader l = false) →
      st.currentFile = "" → st.diagnostics = [] →
      (lines.foldl (stepLine fs ws wd known target) st).currentFile = ""
        ∧ (lines.foldl (stepLine fs ws wd known target) st).diagnostics = [] := by
  induction lines with
  | nil => intro st _ h1 h2; exact ⟨h1, h2⟩
  | cons l rest ih =>
    intro st hl h1 h2
    have h := stepLine_noHeader fs ws wd known target st l
      (hl l (List.mem_cons_self _ _)) h1 h2
    exact ih _ (fun x hx => hl x (List.mem_cons_of_mem _ hx)) h.1 h.2

/-! Claim theorems. -/

/-- C1: when the analysis scope is a single known local file (the target
ends in .php and exists locally at parse time), the parser ignores the
literal content of every file-header line in the report and attributes
every emitted diagnostic to that known file, regardless of what path
string appears in the report. -/
theorem known_single_file_attribution (fs : FS) (stdout ws wd tp : String)
    (h1 : strEnds tp ".php" = true) (h2 : fsExists fs tp = true) :
    (processPhpstanOutput fs stdout ws wd (some tp)).all
      (fun e => e.1 == tp) = true := by
  have hk : knownFileOf fs (some tp) = some tp := by
    simp [knownFileOf, h1, h2]
  rw [List.all_eq_true]
  intro e he
  have hm : e ∈ ((phpLines stdout).foldl
      (stepLine fs ws wd (some tp) (some tp)) ⟨"", []⟩).diagnostics := by
    simpa [processPhpstanOutput, scanLines, hk] using he
  have hkey := foldKnownInv fs ws wd (some tp) tp (phpLines stdout) ⟨"", []⟩
    (Or.inl rfl) (by intro x hx; exact absurd hx (List.not_mem_nil x)) e hm
  simpa using hkey

/-- C1 witness: a concrete report whose single header line names a
different existing file, yet the diagnostic lands on the known target. -/
theorem known_single_file_attribution_witness :
    strEnds "/ws/Foo.php" ".php" = true
      ∧ fsExists [("/ws", true), ("/ws/Foo.php", false), ("/ws/Other.php", false)]
          "/ws/Foo.php" = true
      ∧ (processPhpstanOutput
            [("/ws", true), ("/ws/Foo.php", false), ("/ws/Other.php", false)]
            ("/ws/Other.php\n  4   some problem")
            "/ws" "/var/www/html" (some "/ws/Foo.php")).all
          (fun e => e.1 == "/ws/Foo.php") = true :=
  ⟨by decide, by decide,
    known_single_file_attribution _ _ _ _ _ (by decide) (by decide)⟩

/-- C2 counterexample: the line "  5 err ------ x" has the diagnostic-row
shape and a current file was established by the preceding header, yet the
scan discards it through the separator rule because it contains a
six-dash run; the claim that only pure dash-run rows are discarded by the
separator rule is false. -/
theorem dash_separator_claim_cex :
    errorMatch "  5 err ------ x" = some (5, " err ------ x")
      ∧ hasDashSep "  5 err ------ x" = true
      ∧ processPhpstanOutput
          [("/ws", true), ("/ws/src", true), ("/ws/src/Foo.php", false)]
          ("src/Foo.php\n  5 err ------ x") "/ws" "/var/www/html" none = [] :=
  ⟨by decide, by decide, by decide⟩

/-- C2 amended: a report line is skipped by the separator rule whenever
it contains the substring of six dashes anywhere, regardless of any other
content on the line; in particular every pure dash-run separator row is
skipped. -/
theorem dash_line_always_skipped (fs : FS) (ws wd : String)
    (known target : Option String) (st : ScanState) (line : String)
    (h : hasDashSep line = true) :
    stepLine fs ws wd known target st line = st := by
  by_cases h1 : trimJS line = ""
  · simp [stepLine, h1]
  · simp [stepLine, h1, h]

/-- C2 witness: a pure separator row is skipped. -/
theorem dash_line_always_skipped_witness :
    hasDashSep " ------ " = true
      ∧ stepLine [] "/ws" "/var/www/html" none none ⟨"", []⟩ " ------ " = ⟨"", []⟩ :=
  ⟨by decide,
    dash_line_always_skipped [] "/ws" "/var/www/html" none none ⟨"", []⟩ " ------ "
      (by decide)⟩

/-- C3: parsing is deterministic: re-parsing an unchanged report with the
same workspace root, remote working directory and scope yields an
identical mapping — the parse is a pure function of the report, the two
roots, the scope, and the filesystem snapshot the source consults through
its existence checks. -/
theorem parse_deterministic (fs : FS) (r1 r2 ws wd : String)
    (target : Option String) (h : r1 = r2) :
    processPhpstanOutput fs r1 ws wd target
      = processPhpstanOutput fs r2 ws wd target := by
  rw [h]

/-- C3 witness at a concrete report. -/
theorem parse_deterministic_witness :
    ("src/Foo.php\n  12   boom" : String) = "src/Foo.php\n  12   boom"
      ∧ processPhpstanOutput [("/ws", true)] "src/Foo.php\n  12   boom"
          "/ws" "/var/www/html" none
        = processPhpstanOutput [("/ws", true)] "src/Foo.php\n  12   boom"
            "/ws" "/var/www/html" none :=
  ⟨rfl, parse_deterministic [("/ws", true)] "src/Foo.php\n  12   boom"
    "src/Foo.php\n  12   boom" "/ws" "/var/www/html" none rfl⟩

/-- C4 counterexample: with a workspace holding no PHP file, the header
token misses every resolution step, the unresolved joined path becomes
the mapping key, and that key does not exist locally; the claim that
every key is a resolvable existing local path is false. -/
theorem existing_keys_claim_cex :
    processPhpstanOutput [("/ws", true)] ("missing.php\n 2 boom")
        "/ws" "/var/www/html" none
      = [("/ws/missing.php", [mkDiag 1 "boom"])]
      ∧ fsExists [("/ws", true)] "/ws/missing.php" = false :=
  ⟨by decide, by decide⟩

/-- C4 amended: keys of the produced mapping are the scan's resolved
current-file paths, which exist locally when the resolution chain
succeeds but may be non-existing best-effort paths when every step fails;
within each file the diagnostics appear in exactly the order of their
rows in the report: the list stored under any key equals the subsequence
of the scan's emission trace attributed to that key. -/
theorem per_file_order_follows_report (fs : FS) (stdout ws wd : String)
    (target : Option String) (f : String) :
    lookupD (processPhpstanOutput fs stdout ws wd target) f
      = fileFilter f (reportTrace fs stdout ws wd target) :=
  (foldRel fs ws wd (knownFileOf fs target) target (phpLines stdout)
    ⟨"", []⟩ ("", []) rfl (fun _ => rfl)).2 f

/-- C5: a diagnostic row appearing before any recognized file-header line
is discarded and attributed to no file; a report none of whose lines is a
recognized file header yields the empty mapping even when
diagnostic-row-shaped lines appear. -/
theorem orphan_rows_dropped (fs : FS) (stdout ws wd : String)
    (target : Option String)
    (h : (phpLines stdout).all (fun l => !isFileHeader l) = true) :
    processPhpstanOutput fs stdout ws wd target = [] := by
  have hl : ∀ l ∈ phpLines stdout, isFileHeader l = false := by
    intro l hml
    have hx := List.all_eq_true.mp h l hml
    simpa using hx
  have hf := foldNoHeader fs ws wd (knownFileOf fs target) target
    (phpLines stdout) ⟨"", []⟩ hl rfl rfl
  simpa [processPhpstanOutput, scanLines] using hf.2

/-- C5 witness: a report made only of diagnostic-shaped rows parses to
the empty mapping. -/
theorem orphan_rows_dropped_witness :
    (phpLines "  12   Undefined method foo().\n 3 another row").all
        (fun l => !isFileHeader l) = true
      ∧ processPhpstanOutput [("/ws", true)]
          "  12   Undefined method foo().\n 3 another row"
          "/ws" "/var/www/html" none = [] :=
  ⟨by decide,
    orphan_rows_dropped [("/ws", true)] "  12   Undefined method foo().\n 3 another row"
      "/ws" "/var/www/html" none (by decide)⟩

/-- C6: for scope /ws/src/Foo.php with workspace root /ws and remote
working directory /var/www/html, the remote path argument appended to the
composed analyzer command equals /var/www/html/src/Foo.php. -/
theorem single_file_remote_path_argument :
    containerPathFor "/ws" "/var/www/html" "/ws/src/Foo.php"
        = "/var/www/html/src/Foo.php"
      ∧ buildPhpstanCommand [] "vendor/bin/phpstan" "5" "phpstan.neon" "/ws"
          "/var/www/html" (some "/ws/src/Foo.php")
        = "vendor/bin/phpstan analyse --level=5 /var/www/html/src/Foo.php" :=
  ⟨by decide, by decide⟩

/-- C7: a run exiting with the issues-found code 1 is not treated as an
error; its captured stdout is parsed by the same function with the same
arguments as a clean run, so equal stdout content yields identical
mappings. -/
theorem issues_found_exit_parsed_same (fs : FS) (ws wd : String)
    (target : Option String) (stdout e1 e2 : String) :
    handleExecResult fs ws wd target (ExecResult.failed 1 stdout e1)
        = handleExecResult fs ws wd target (ExecResult.ok stdout e2)
      ∧ handleExecResult fs ws wd target (ExecResult.failed 1 stdout e1)
        = some (processPhpstanOutput fs stdout ws wd target) := by
  constructor <;> simp [handleExecResult]

/-- C8: an empty stdout report parses to the empty mapping and the run
reports the distinct no-problems summary message rather than an error. -/
theorem empty_report_no_problems (fs : FS) (ws wd : String)
    (target : Option String) :
    processPhpstanOutput fs "" ws wd target = []
      ∧ summaryMessage (processPhpstanOutput fs "" ws wd target)
        = "PHPStan no encontró problemas" :=
  ⟨rfl, rfl⟩

/-- C9: a diagnostic row whose leading integer is 0 is dropped entirely
even when a current file is established: the one-based-to-zero-based
conversion yields -1 and the non-negative guard discards the row, leaving
the scan state unchanged. -/
theorem zero_line_row_dropped (fs : FS) (ws wd : String)
    (known target : Option String) (st : ScanState) (line msg : String)
    (h : errorMatch line = some (0, msg)) :
    stepLine fs ws wd known target st line = st := by
  by_cases h1 : trimJS line = ""
  · simp [stepLine, h1]
  · by_cases h2 : hasDashSep line = true
    · simp [stepLine, h1, h2]
    · simp [stepLine, h1, h2, h]

/-- C9 witness: the row " 0 boom" leaves a state with an established
current file untouched. -/
theorem zero_line_row_dropped_witness :
    errorMatch " 0 boom" = some (0, " boom")
      ∧ stepLine [] "/ws" "/var/www/html" none none ⟨"/ws/a.php", []⟩ " 0 boom"
        = ⟨"/ws/a.php", []⟩ :=
  ⟨by decide,
    zero_line_row_dropped [] "/ws" "/var/www/html" none none ⟨"/ws/a.php", []⟩
      " 0 boom" " boom" (by decide)⟩

/-- C10: the single-known-file shortcut is taken only when the target
ends in .php and exists locally at parse time; otherwise the scan runs
with no known file, so file-header tokens are resolved through the
general resolution chain while the target still only steers the search
root of the basename fallback. -/
theorem missing_target_uses_resolution_chain (fs : FS) (stdout ws wd tp : String)
    (h : (strEnds tp ".php" && fsExists fs tp) = false) :
    processPhpstanOutput fs stdout ws wd (some tp)
      = scanLines fs ws wd none (some tp) (phpLines stdout) := by
  have hk : knownFileOf fs (some tp) = none := by
    simp [knownFileOf, h]
  simp [processPhpstanOutput, hk]

/-- C10 witness: a target that does not exist locally leaves the scan on
the general resolution chain. -/
theorem missing_target_uses_resolution_chain_witness :
    (strEnds "/ws/Foo.php" ".php" && fsExists [] "/ws/Foo.php") = false
      ∧ processPhpstanOutput [] "Foo.php\n 1 x" "/ws" "/var/www/html"
          (some "/ws/Foo.php")
        = scanLines [] "/ws" "/var/www/html" none (some "/ws/Foo.php")
            (phpLines "Foo.php\n 1 x") :=
  ⟨by decide,
    missing_target_uses_resolution_chain [] "Foo.php\n 1 x" "/ws" "/var/www/html"
      "/ws/Foo.php" (by decide)⟩

end PhpstanRunner
